import Mathlib

set_option linter.unusedVariables false

/-- Result of running embedded Rust code: normal return, a panic
(assertion failure, out-of-bounds index, arithmetic underflow or
`unreachable!`), or exhaustion of the evaluation fuel. -/
inductive Res (α : Type) where
  | ok (a : α)
  | panic
  | nofuel
deriving Repr, DecidableEq

def Res.bind {α β : Type} : Res α → (α → Res β) → Res β
  | .ok a, f => f a
  | .panic, _ => .panic
  | .nofuel, _ => .nofuel

instance : Monad Res where
  pure := Res.ok
  bind := Res.bind

/-- `data[i]` on a Rust `Vec`: panics when the index is out of bounds. -/
def lget {α : Type} (data : List α) (i : Nat) : Res α :=
  match data.get? i with
  | some a => .ok a
  | none => .panic

/-- `data.swap(i, j)` on a Rust `Vec`: panics when an index is out of bounds. -/
def lswap {α : Type} (data : List α) (i j : Nat) : Res (List α) := do
  let a ← lget data i
  let b ← lget data j
  pure ((data.set i b).set j a)

/-- `assert!(b)`: panics when the condition fails. -/
def assertR (b : Prop) [Decidable b] : Res Unit :=
  if b then .ok () else .panic

/-- The `step l` inner loop of `hoare_b` in src/partition_functions.rs:
`while l < r` advance `l` past elements comparing `Less` to the pivot;
on `Equal` set `pivot_idx = min(l, pivot_idx)` and break; on `Greater`
break.  Returns the new `l` and `pivot_idx`. -/
def stepL {α : Type} (fuel : Nat) (cmp : α → α → Ordering) (data : List α)
    (pivot l r : Nat) : Res (Nat × Nat) :=
  match fuel with
  | 0 => .nofuel
  | fuel + 1 =>
    if l < r then do
      let dl ← lget data l
      let dp ← lget data pivot
      match cmp dl dp with
      | .lt => stepL fuel cmp data pivot (l + 1) r
      | .eq => pure (l, min l pivot)
      | .gt => pure (l, pivot)
    else pure (l, pivot)

/-- The `step r` inner loop of `hoare_b`: `while l < r`, on `Less` break,
on `Equal` set `pivot_idx = min(r, pivot_idx)` and decrement `r`, on
`Greater` decrement `r`.  Returns the new `r` and `pivot_idx`. -/
def stepR {α : Type} (fuel : Nat) (cmp : α → α → Ordering) (data : List α)
    (pivot l r : Nat) : Res (Nat × Nat) :=
  match fuel with
  | 0 => .nofuel
  | fuel + 1 =>
    if l < r then do
      let dr ← lget data r
      let dp ← lget data pivot
      match cmp dr dp with
      | .lt => pure (r, pivot)
      | .eq => stepR fuel cmp data (min r pivot) l (r - 1)
      | .gt => stepR fuel cmp data pivot l (r - 1)
    else pure (r, pivot)

/-- The outer `loop` of `hoare_b`: run `step l` and `step r`, exit when
`l >= r`, otherwise `data.swap(l, r)`, re-track the pivot index
(`if r == pivot_idx { pivot_idx = l } else if l == pivot_idx
{ pivot_idx = r }`), and repeat.  Returns the array and the final
pivot index. -/
def ploop {α : Type} (fuel : Nat) (cmp : α → α → Ordering) (data : List α)
    (pivot l r : Nat) : Res (List α × Nat) :=
  match fuel with
  | 0 => .nofuel
  | fuel + 1 => do
    let (l, pivot) ← stepL (data.length + 1) cmp data pivot l r
    let (r, pivot) ← stepR (data.length + 1) cmp data pivot l r
    if l ≥ r then pure (data, pivot)
    else do
      let data ← lswap data l r
      let pivot := if r = pivot then l else if l = pivot then r else pivot
      ploop fuel cmp data pivot l r

/-- The inner `recurse` of `hoare_b`, including its leading assertions
`assert!(left < right)`, `assert!(right < data.len())`,
`assert!((left..=right).contains(&target_idx))`, the midpoint pivot
choice, one partition pass, and the recursion into the half containing
`target_idx` (the `Ordering::Equal` arm of `usize::cmp(&target_idx,
&pivot_idx)` is `unreachable!()`, i.e. a panic).  Returns the resolved
index together with the rearranged array. -/
def precurse {α : Type} (fuel : Nat) (cmp : α → α → Ordering) (data : List α)
    (left target right : Nat) : Res (Nat × List α) :=
  match fuel with
  | 0 => .nofuel
  | fuel + 1 => do
    let _ ← assertR (left < right)
    let _ ← assertR (right < data.length)
    let _ ← assertR (left ≤ target ∧ target ≤ right)
    let pivot := (right - left) / 2 + left
    let _ ← assertR (left ≤ pivot ∧ pivot ≤ right)
    let (data, pivot) ← ploop (2 * data.length + 4) cmp data pivot left right
    let dp ← lget data pivot
    let dt ← lget data target
    if cmp dp dt = .eq then pure (pivot, data)
    else if target < pivot then precurse fuel cmp data left target (pivot - 1)
    else if target = pivot then .panic
    else precurse fuel cmp data (pivot + 1) target right

/-- `hoare_b` from src/partition_functions.rs: the Selector actually used
by the tree (`use partition_functions::hoare_b as partition`).  The top
level calls `recurse(data, 0, data.len() / 2, data.len() - 1, key_cmp)`;
on an empty vector `data.len() - 1` underflows `usize`, which panics. -/
def hoareB {α : Type} (cmp : α → α → Ordering) (data : List α) :
    Res (Nat × List α) :=
  if data.isEmpty then .panic
  else precurse (data.length + 2) cmp data 0 (data.length / 2) (data.length - 1)

/-- `Ord::cmp` for a linearly ordered key type. -/
def cmp3 {α : Type} [LinearOrder α] (a b : α) : Ordering :=
  if a < b then .lt else if a = b then .eq else .gt

/-- `u32::cmp` / `Int` comparison used by the repository's partition tests. -/
def icmp (a b : Int) : Ordering := cmp3 a b

/-- The point capability of src/lib.rs (`trait KDPoint`): key projection
per axis, full distance, and one-axis key distance.  `Key` and
`Distance` are `Ord` in Rust, i.e. linearly ordered. -/
structure KDP (T K D : Type) [LinearOrder K] [LinearOrder D] where
  kdkey : T → Nat → K
  distance : T → T → D
  key_distance : K → K → D

/-- `Option<Box<Node<T>>>` of src/lib.rs: `nil` is `None`, and
`node data left right` is a `Node` with its two optional children. -/
inductive KTree (T : Type) where
  | nil
  | node (data : T) (left right : KTree T)
deriving Repr, DecidableEq

/-- In-order traversal of the stored points. -/
def elems {T : Type} : KTree T → List T
  | .nil => []
  | .node d l r => elems l ++ d :: elems r

/-- Left child of the root node (`nil` for an empty tree). -/
def leftOf {T : Type} : KTree T → KTree T
  | .nil => .nil
  | .node _ l _ => l

/-- Right child of the root node (`nil` for an empty tree). -/
def rightOf {T : Type} : KTree T → KTree T
  | .nil => .nil
  | .node _ _ r => r

variable {T K D : Type} [LinearOrder K] [LinearOrder D]

/-- `right.swap_remove(0)` on a Rust `Vec`: removes the element at index
0 (returning it) and moves the last element into its place; panics on an
empty vector. -/
def swapRemove0 {α : Type} : List α → Res (α × List α)
  | [] => .panic
  | a :: rest =>
    match rest.getLast? with
    | none => .ok (a, [])
    | some b => .ok (a, b :: rest.dropLast)

/-- `Node::make` of src/lib.rs: empty input gives no node; otherwise run
the Selector (`hoare_b`) under `make_compare(dimension)`, `assert!(idx <
data.len())`, split the vector at `idx` (`split_off`), assert the right
part nonempty, take its first element via `swap_remove(0)` as the node's
data, and recursively build both children at `dimension + 1`. -/
def nmake (P : KDP T K D) (fuel : Nat) (data : List T) (dimension : Nat) :
    Res (KTree T) :=
  match fuel with
  | 0 => .nofuel
  | fuel + 1 =>
    if data.isEmpty then pure .nil
    else do
      let (idx, data) ← hoareB (fun l r => cmp3 (P.kdkey l dimension) (P.kdkey r dimension)) data
      let _ ← assertR (idx < data.length)
      let right := data.drop idx
      let left := data.take idx
      let _ ← assertR (¬ right.isEmpty)
      let (element, right) ← swapRemove0 right
      let l ← nmake P fuel left (dimension + 1)
      let r ← nmake P fuel right (dimension + 1)
      pure (.node element l r)

/-- `KDTree::make` of src/lib.rs: build from a collection, root at
dimension 0. -/
def ktreeMake (P : KDP T K D) (data : List T) : Res (KTree T) :=
  nmake P (data.length + 1) data 0

/-- `Node::insert` / `KDTree::insert` of src/lib.rs: descend left if the
existing node's key at the current dimension is strictly less than the
new point's key, otherwise right; an absent child slot receives the new
leaf (`Node::new(data)`), and an absent root becomes the new root. -/
def insertT (P : KDP T K D) : KTree T → T → Nat → KTree T
  | .nil, p, _ => .node p .nil .nil
  | .node d l r, p, dimension =>
    if P.kdkey d dimension < P.kdkey p dimension
    then .node d (insertT P l p (dimension + 1)) r
    else .node d l (insertT P r p (dimension + 1))

/-- Running state of the `Vizz` visitor in `KDTree::find_nearest`:
current best point and current best distance (both initially absent).
The mutable `dimension` counter, incremented before and decremented
after each child visit, is passed as an explicit depth argument to
`visit` instead. -/
structure VizzSt (T D : Type) where
  best : Option T
  dist : Option D
deriving Repr, DecidableEq

/-- The per-node part of `Vizz::visit` after the first child returns:
record the node's point as new best when no best exists or its distance
is strictly smaller; then unwrap the running best distance
(`self.distance.as_ref().unwrap()`, a panic if absent) and report
whether it is strictly greater than the one-axis key distance from the
search point to the node, i.e. whether the far child must be visited. -/
def nodeStep (P : KDP T K D) (search point : T) (dimension : Nat)
    (st : VizzSt T D) : Res (VizzSt T D × Bool) :=
  let curr := P.distance search point
  let st :=
    if (match st.dist with
        | some bd => decide (curr < bd)
        | none => true)
    then ⟨some point, some curr⟩ else st
  let tts := P.key_distance (P.kdkey search dimension) (P.kdkey point dimension)
  match st.dist with
  | none => .panic
  | some bd => .ok (st, decide (bd > tts))

/-- `Vizz::visit` of src/lib.rs: choose near/far child by comparing the
search point's key to the node's key on the current dimension
(`is_lt`), visit the near child first, update the best via `nodeStep`,
and visit the far child only when the best distance wraps over the
split.  Visiting an absent child is a no-op (`visit_left`/`visit_right`
guard on `Some`). -/
def visit (P : KDP T K D) (search : T) : KTree T → Nat → VizzSt T D →
    Res (VizzSt T D)
  | .nil, _, st => .ok st
  | .node point l r, dimension, st =>
    if cmp3 (P.kdkey search dimension) (P.kdkey point dimension) = .lt then
      (visit P search l (dimension + 1) st).bind fun st1 =>
      (nodeStep P search point dimension st1).bind fun sg =>
      if sg.2 then visit P search r (dimension + 1) sg.1 else .ok sg.1
    else
      (visit P search r (dimension + 1) st).bind fun st1 =>
      (nodeStep P search point dimension st1).bind fun sg =>
      if sg.2 then visit P search l (dimension + 1) sg.1 else .ok sg.1

/-- `KDTree::find_nearest` of src/lib.rs: run the visitor from dimension
0 with no best recorded, over the root when present, and return the best
point found (`None` for an empty tree). -/
def findNearest (P : KDP T K D) (t : KTree T) (search : T) :
    Res (Option T) :=
  (visit P search t 0 ⟨none, none⟩).bind fun st => .ok st.best

/-- A one-dimensional instance of the point capability in the style of
`Point3D<T>` from src/points.rs: the key on every axis is the point
itself, and both distances are the squared difference, so
`key_distance` equals `distance` (a valid lower bound). -/
def P1 : KDP Int Int Int :=
  ⟨fun x _ => x, fun a b => (a - b) * (a - b), fun a b => (a - b) * (a - b)⟩

/-- A two-dimensional integer instance of the point capability in the
style of `Point2D` from src/points.rs: axis 0 is the first coordinate,
axis 1 the second (wrapping modulo 2), distance is the squared Euclidean
distance and key distance the squared one-axis difference. -/
def P2 : KDP (Int × Int) Int Int :=
  ⟨fun p d => if d % 2 = 0 then p.1 else p.2,
   fun p q => (p.1 - q.1) * (p.1 - q.1) + (p.2 - q.2) * (p.2 - q.2),
   fun a b => (a - b) * (a - b)⟩


/-- `SubtreeAt t d s e`: the tree `s` occurs as a subtree of `t` at
recursion depth `e`, when `t` itself sits at depth `d` (children sit one
dimension deeper, matching the `dimension + 1` of the traversals). -/
inductive SubtreeAt {T : Type} : KTree T → Nat → KTree T → Nat → Prop where
  | refl (t : KTree T) (d : Nat) : SubtreeAt t d t d
  | inLeft {a : T} {l r s : KTree T} {d e : Nat} :
      SubtreeAt l (d + 1) s e → SubtreeAt (.node a l r) d s e
  | inRight {a : T} {l r s : KTree T} {d e : Nat} :
      SubtreeAt r (d + 1) s e → SubtreeAt (.node a l r) d s e

theorem subtreeAt_mem_elems {T : Type} {t s : KTree T} {d e : Nat}
    (h : SubtreeAt t d s e) : ∀ x ∈ elems s, x ∈ elems t := by
  induction h with
  | refl t d => intro x hx; exact hx
  | inLeft h ih => intro x hx; simp [elems]; exact Or.inl (ih x hx)
  | inRight h ih => intro x hx; simp [elems]; exact Or.inr (Or.inr (ih x hx))

theorem nodeStep_ok {T K D : Type} [LinearOrder K] [LinearOrder D]
    (P : KDP T K D) (search point : T) (dimension : Nat) (st : VizzSt T D) :
    ∃ sg, nodeStep P search point dimension st = .ok sg := by
  obtain ⟨b, d⟩ := st
  cases d with
  | none => exact ⟨_, rfl⟩
  | some bd =>
    unfold nodeStep
    dsimp only
    by_cases h : P.distance search point < bd
    · simp [h]
    · simp [h]

/-- Claim C9: for every tree, search point and visitor state, `Vizz::visit`
returns normally: whenever the far-child pruning check is reached, a best
distance has already been recorded (the node's own update just before it
fills it in when absent), so the `unwrap` of the running best distance
never fails. -/
theorem visit_never_fails {T K D : Type} [LinearOrder K] [LinearOrder D]
    (P : KDP T K D) (search : T) (t : KTree T) (dimension : Nat)
    (st : VizzSt T D) : ∃ st', visit P search t dimension st = .ok st' := by
  induction t generalizing dimension st with
  | nil => exact ⟨st, rfl⟩
  | node point l r ihl ihr =>
    by_cases hc : cmp3 (P.kdkey search dimension) (P.kdkey point dimension) = .lt
    · obtain ⟨st1, h1⟩ := ihl (dimension + 1) st
      obtain ⟨sg, h2⟩ := nodeStep_ok P search point dimension st1
      by_cases hg : sg.2
      · obtain ⟨st3, h3⟩ := ihr (dimension + 1) sg.1
        exact ⟨st3, by simp [visit, hc, h1, h2, hg, h3, Res.bind]⟩
      · exact ⟨sg.1, by simp [visit, hc, h1, h2, hg, Res.bind]⟩
    · obtain ⟨st1, h1⟩ := ihr (dimension + 1) st
      obtain ⟨sg, h2⟩ := nodeStep_ok P search point dimension st1
      by_cases hg : sg.2
      · obtain ⟨st3, h3⟩ := ihl (dimension + 1) sg.1
        exact ⟨st3, by simp [visit, hc, h1, h2, hg, h3, Res.bind]⟩
      · exact ⟨sg.1, by simp [visit, hc, h1, h2, hg, Res.bind]⟩

/-- Claim C10: `KDTree::insert` changes the tree only by adding the new
point: the multiset of stored points after `insertT` is the previous
multiset plus `p` (so every previously stored point is still present),
and inserting into an empty tree makes `p` the root and sole point. -/
theorem insert_adds_exactly {T K D : Type} [LinearOrder K] [LinearOrder D]
    (P : KDP T K D) (t : KTree T) (p : T) (dimension : Nat) :
    (elems (insertT P t p dimension) : Multiset T) =
      p ::ₘ (elems t : Multiset T) ∧
    insertT P (.nil : KTree T) p dimension = .node p .nil .nil := by
  constructor
  · induction t generalizing dimension with
    | nil => simp [insertT, elems]
    | node d l r ihl ihr =>
      by_cases hc : P.kdkey d dimension < P.kdkey p dimension
      · simp only [insertT, if_pos hc, elems]
        simp only [← Multiset.coe_add, ← Multiset.cons_coe]
        rw [ihl (dimension + 1)]
        simp only [Multiset.cons_add, Multiset.add_cons]
        rw [Multiset.cons_swap]
      · simp only [insertT, if_neg hc, elems]
        simp only [← Multiset.coe_add, ← Multiset.cons_coe]
        rw [ihr (dimension + 1)]
        simp only [Multiset.cons_add, Multiset.add_cons]
        rw [Multiset.cons_swap]
  · rfl

/-- Claim C6 (amended): for every tree and every point `p` not already
stored in it, `insert` places `p` consistent with the splits of all its
ancestors under the code's own descent rule (descend left iff the
existing node's key is strictly less than the new point's key): after
insertion, at every node of the resulting tree, `p` lies in the left
subtree only if its key on that node's splitting axis is strictly
GREATER than the node's key, and in the right subtree only if it is
less-than-or-equal. -/
theorem insert_consistent_with_splits {T K D : Type} [LinearOrder K]
    [LinearOrder D] (P : KDP T K D) (t : KTree T) (p : T) (d0 : Nat)
    {a : T} {l r : KTree T} {e : Nat} (hp : p ∉ elems t)
    (hs : SubtreeAt (insertT P t p d0) d0 (.node a l r) e) :
    (p ∈ elems l → P.kdkey a e < P.kdkey p e) ∧
    (p ∈ elems r → ¬ P.kdkey a e < P.kdkey p e) := by
  induction t generalizing d0 a l r e with
  | nil =>
    simp only [insertT] at hs
    cases hs with
    | refl =>
      constructor <;> intro hmem <;> simp [elems] at hmem
    | inLeft h => cases h
    | inRight h => cases h
  | node td tl tr ihl ihr =>
    have hptd : p ∉ elems tl ∧ p ≠ td ∧ p ∉ elems tr := by
      simpa [elems, not_or] using hp
    simp only [insertT] at hs
    by_cases hc : P.kdkey td d0 < P.kdkey p d0
    · rw [if_pos hc] at hs
      cases hs with
      | refl =>
        refine ⟨fun _ => hc, fun hmem => absurd hmem hptd.2.2⟩
      | inLeft h => exact ihl (d0 + 1) hptd.1 h
      | inRight h =>
        constructor <;> intro hmem <;>
          exact absurd (subtreeAt_mem_elems h p (by simp [elems, hmem]))
            hptd.2.2
    · rw [if_neg hc] at hs
      cases hs with
      | refl =>
        refine ⟨fun hmem => absurd hmem hptd.1, fun _ => hc⟩
      | inLeft h =>
        constructor <;> intro hmem <;>
          exact absurd (subtreeAt_mem_elems h p (by simp [elems, hmem]))
            hptd.1
      | inRight h => exact ihr (d0 + 1) hptd.2.2 h

/-- Witness for the amended claim C6 at a concrete input: inserting the
point `1` into the single-node tree `{0}` (one-dimensional integer
points).  The point is fresh, the root of the result is inspected, and
both placement implications are obtained from the theorem. -/
theorem insert_consistent_with_splits_witness :
    ((1 : Int) ∉ elems (KTree.node (0 : Int) .nil .nil)) ∧
    (((1 : Int) ∈ elems (KTree.node (1 : Int) .nil .nil) →
        P1.kdkey 0 0 < P1.kdkey 1 0) ∧
     ((1 : Int) ∈ elems (KTree.nil : KTree Int) →
        ¬ P1.kdkey 0 0 < P1.kdkey 1 0)) :=
  ⟨by decide,
   insert_consistent_with_splits P1 (KTree.node (0 : Int) .nil .nil) 1 0
     (by decide) (SubtreeAt.refl _ 0)⟩

/-- Counterexample to claim C6 as stated: inserting the point `1` into
the single-node tree `{0}` (one-dimensional integer points) places `1`
in the LEFT subtree of the root, yet its key is not strictly less than
the root's key — the opposite of the claimed direction. -/
theorem insert_split_direction_counterexample :
    insertT P1 (KTree.node (0 : Int) .nil .nil) 1 0 =
      KTree.node 0 (KTree.node 1 .nil .nil) .nil ∧
    (1 : Int) ∈ elems (leftOf (insertT P1 (KTree.node (0 : Int) .nil .nil) 1 0)) ∧
    ¬ P1.kdkey 1 0 < P1.kdkey 0 0 := by
  refine ⟨rfl, by decide, by decide⟩

/-- Claim C4 (failing evaluation): on the single-element array `[17]` —
the repository's own `single` test, which expects the Selector to return
index 0 — `hoare_b` panics: its `recurse` is entered with
`left = right = 0` and immediately fails `assert!(left < right)`; there
is no 1-length base case. -/
theorem selector_single_element_aborts : hoareB icmp [17] = .panic := by rfl

/-- Claim C8 (failing evaluation): on the already-sorted two-element
array `[1, 2]` — the repository's own `pair` test, which expects index
1 — `hoare_b` does not complete: the first pass ends with
`pivot_idx = 0`, and the recursion into `[pivot_idx + 1, right] =
[1, 1]` fails `assert!(left < right)`. -/
theorem selector_sorted_pair_aborts : hoareB icmp [1, 2] = .panic := by rfl

/-- Claim C7 (failing evaluation): on the sorted two-element array
`[2, 3]` the Selector, called with `target = len/2 = 1` exactly as the
tree build calls it, aborts on `assert!(left < right)` instead of
returning an index, so no low/high partition exists at all. -/
theorem selector_balance_unattainable : hoareB icmp [2, 3] = .panic := by rfl

/-- Claim C3 (failing evaluation): on the array `[3, 1, 2]` the Selector
returns normally with index 1 and the array left as `[3, 1, 2]`, yet the
element at index 0 (namely 3) is not strictly less than the element at
the returned index (namely 1): the partition property fails on a run
that does return. -/
theorem selector_partition_property_fails :
    hoareB icmp [3, 1, 2] = .ok (1, [3, 1, 2]) ∧ icmp 3 1 ≠ .lt := by
  exact ⟨by rfl, by decide⟩

/-- Claim C2 (failing evaluation): building a tree from the single-point
collection `[(1, 1)]` of two-dimensional integer points panics inside
the Selector (`assert!(left < right)` with `left = right = 0`), so no
tree satisfying the split invariant and holding the input multiset is
produced. -/
theorem build_single_point_aborts :
    ktreeMake P2 [((1 : Int), (1 : Int))] = .panic := by rfl

/-- Claim C1 (failing evaluation): building a tree from the spec's
seven-point scenario collection (0,0), (2,3), (5,4), (9,6), (4,7),
(8,1), (7,2) panics during `KDTree::make` (the recursive build reaches a
one-element sub-array, on which the Selector fails
`assert!(left < right)`), so `find_nearest` can never be consulted on a
built nonempty tree. -/
theorem build_scenario_aborts :
    ktreeMake P2 [(0, 0), (2, 3), (5, 4), (9, 6), (4, 7), (8, 1), (7, 2)]
      = .panic := by rfl

/-- Claim C5 (failing evaluation): growing a tree by inserting the
one-dimensional point 0 into the empty tree and then inserting -1, and
querying `find_nearest` for -1 itself, returns the point 0 at squared
distance 1, not the stored point -1 at distance 0: `insert` routes -1
into the RIGHT child of 0 (because `selfkey < datakey` is false), while
the search prunes the right child (the best distance 1 is not strictly
greater than the one-axis key distance 1), so the inserted point is
never found. -/
theorem insert_then_find_misses :
    findNearest P1 (insertT P1 (insertT P1 .nil 0 0) (-1) 0) (-1)
      = .ok (some 0) ∧ P1.distance (-1) 0 ≠ 0 := by
  exact ⟨by rfl, by decide⟩
